import Mathlib

/-!
Verification development for the orchid deployment orchestrator.

The repository ships two generations of the orchestrator package:
* generation 1 (`internal/orchestrator/orchestrator.go`, `internal/config/parser.go`,
  `internal/ssh/factory.go` with its client file): an application-list model with an
  `appStates` map, a background monitor goroutine and a `FlagManager`;
* generation 2 (the step-based `orchestrator.go` shipped among the unnamed
  sources, with the step/host config loader): a sequence of typed steps
  (`dependency` / `application` / `command`) with `handle_deps` / `stop_deps`
  options and per-step fan-out, without a flag.

Both are embedded below (`V1` and `V2`), together with the flag manager
(`Flag`, covering the plain version in `flag.go` and the metadata-writing
version shipped next to the tests).  Remote command execution, SSH client
construction and filesystem outcomes are modelled by explicit oracles so the
embedded functions are executable and deterministic for a given oracle.
-/

namespace Flag

/-- Flag-file metadata as in the metadata-writing version of the flag manager
(`FlagMetadata` in the source): pipeline id, commit ref, project name,
environment name and the acquisition timestamp.  The timestamp is kept as an
opaque string. -/
structure FlagMetadata where
  pipelineID : String
  commitRef : String
  projectName : String
  environment : String
  acquiredAt : String
deriving DecidableEq, Repr

/-- What the flag file on disk contains after creation: the plain `flag.go`
`Acquire` creates the file with `os.OpenFile(..., O_CREATE|O_EXCL, 0644)` and
closes it immediately, writing no bytes (`empty`); the metadata version writes
the JSON-encoded metadata (`record m`). -/
inductive FlagContents where
  | empty
  | record (m : FlagMetadata)
deriving DecidableEq, Repr

/-- State of the flag: whether this process holds the advisory lock
(`flock.Flock` on `flagPath + ".lock"`), and the flag file on disk, if any. -/
structure FlagState where
  lockHeld : Bool
  flagFile : Option FlagContents
deriving DecidableEq, Repr

/-- Result of `Acquire`. -/
inductive AcquireResult where
  | ok
  | lockError      -- TryLock returned an error
  | contention     -- TryLock returned false: "another operation is in progress"
  | fileExists     -- O_EXCL creation failed with EEXIST
  | createError    -- O_EXCL creation failed with another error
  | writeError     -- metadata version only: file.Write failed
deriving DecidableEq, Repr

/-- Result of `Release`. -/
inductive ReleaseResult where
  | ok
  | removeError    -- os.Remove failed with an error other than ENOENT
deriving DecidableEq, Repr

/-- The `Acquire` of the plain `flag.go`: `TryLock`, then exclusive-create the flag
file and close it at once without writing anything.  If creation fails the
advisory lock is unlocked before returning.  `tryLockErr` models a `TryLock`
error, `acquired` its boolean outcome, and `createFails` a filesystem error
other than EEXIST on the exclusive create. -/
def acquire (s : FlagState) (tryLockErr acquired createFails : Bool) :
    AcquireResult × FlagState :=
  if tryLockErr then (.lockError, s)
  else if !acquired then (.contention, s)
  else
    let s := { s with lockHeld := true }
    if s.flagFile.isSome then (.fileExists, { s with lockHeld := false })
    else if createFails then (.createError, { s with lockHeld := false })
    else (.ok, { s with flagFile := some .empty })

/-- The `Acquire` of the metadata-writing flag manager shipped next to the tests:
`TryLock`, marshal the metadata captured at construction, exclusive-create the
flag file and write the JSON bytes.  Every failure after a successful `TryLock`
unlocks the advisory lock before returning.  `marshalFails` models a
`json.MarshalIndent` error and `writeFails` a `file.Write` error (in which case
the created file is left behind, still empty). -/
def acquireMeta (s : FlagState) (m : FlagMetadata)
    (tryLockErr acquired marshalFails createFails writeFails : Bool) :
    AcquireResult × FlagState :=
  if tryLockErr then (.lockError, s)
  else if !acquired then (.contention, s)
  else
    let s := { s with lockHeld := true }
    if marshalFails then (.createError, { s with lockHeld := false })
    else if s.flagFile.isSome then (.fileExists, { s with lockHeld := false })
    else if createFails then (.createError, { s with lockHeld := false })
    else if writeFails then
      (.writeError, { lockHeld := false, flagFile := some .empty })
    else (.ok, { s with flagFile := some (.record m) })

/-- The `Release` (identical in both flag manager versions): `os.Remove` the flag
file — an ENOENT is tolerated, any other removal error is returned at once, in
which case `flock.Unlock` is never reached — then `flock.Unlock`.  The removal
outcome is determined by the state: a missing file yields ENOENT, an existing
file fails when `removeFails` holds.  The `Unlock` of `gofrs/flock` is a no-op
returning nil when the lock is not held, and is modelled as always
succeeding. -/
def release (s : FlagState) (removeFails : Bool) :
    ReleaseResult × FlagState :=
  match s.flagFile with
  | none => (.ok, { s with lockHeld := false })
  | some _ =>
      if removeFails then (.removeError, s)
      else (.ok, { lockHeld := false, flagFile := none })

end Flag

namespace V1

/-- An application of the generation-1 config (`internal/config/parser.go`):
name, host and the start/stop/check command strings.  `check_interval` only
feeds a `time.Sleep` between start and post-start check and carries no
branching information, so it is omitted. -/
structure Application where
  name : String
  host : String
  startCommand : String
  stopCommand : String
  checkCommand : String
deriving DecidableEq, Repr

/-- Observable events of a generation-1 run, in chronological order. -/
inductive Ev where
  | flagAcquire                              -- flagManager.Acquire succeeded
  | flagCreate                               -- the flag file was created on disk
  | flagRelease                              -- deferred flagManager.Release ran
  | clientBuild (host : String) (ok : Bool)  -- NewSSHClient dialed the network
  | remoteRun (host cmd : String) (ok : Bool) -- client.RunCommand executed remotely
  | wouldRun (host cmd : String)             -- dry-run client: logged, nothing run
  | wouldStopApp (app : String)              -- dry-run log of a pre-start stop
  | pollCanceled                             -- select observed ctx.Done
  | pollMonitor                              -- select observed the monitor signal
  | started (app : String)                   -- appStates[name] was set to true
  | rollbackBegin                            -- rollback() was entered
  | rbStop (host cmd : String)               -- rollback issued this stop command
deriving DecidableEq, Repr

/-- Environment oracle of the run: the flag acquisition outcome, what each
`select` observes (whether the context is done, whether the buffered monitor
channel holds a signal, and the random choice the Go select makes when both
cases are ready), and the outcome of the n-th SSH client construction and of
the n-th remotely executed command. -/
structure World where
  acquire : Bool
  ctxDone : Nat → Bool
  monPending : Nat → Bool
  tieBreak : Nat → Bool
  buildOk : Nat → Bool
  cmdOk : Nat → Bool

/-- Mutable run state: the names with `appStates[name] = true`, the hosts with
a pooled (still running) SSH client, and the oracle cursors. -/
structure St where
  started : List String := []
  pool : List String := []
  polls : Nat := 0
  builds : Nat := 0
  cmds : Nat := 0
deriving DecidableEq, Repr

/-- The `RealSSHFactory.GetClient` backed by `NewSSHClient`: a pooled client for
the host is returned as-is (nothing closes clients during a run, so
`IsRunning` remains true); in dry-run `NewSSHClient` returns a connectionless
client without error; otherwise the construction dials the network and a
success is cached in the pool. -/
def getClient (w : World) (dry : Bool) (host : String) (s : St) :
    Bool × St × List Ev :=
  if host ∈ s.pool then (true, s, [])
  else if dry then (true, { s with pool := host :: s.pool }, [])
  else
    let ok := w.buildOk s.builds
    (ok, { s with builds := s.builds + 1,
                  pool := if ok then host :: s.pool else s.pool },
     [.clientBuild host ok])

/-- The `Client.RunCommand`: the dry-run client only logs the command; otherwise
it is executed remotely with the outcome given by the oracle. -/
def runCommand (w : World) (dry : Bool) (host cmd : String) (s : St) :
    Bool × St × List Ev :=
  if dry then (true, s, [.wouldRun host cmd])
  else
    let ok := w.cmdOk s.cmds
    (ok, { s with cmds := s.cmds + 1 }, [.remoteRun host cmd ok])

/-- One pass of the reverse loop of `rollback` over the applications (the argument
list is already reversed): apps not marked started are skipped; a failed
client construction is logged and the loop continues with the state untouched;
otherwise the stop command is issued — its failure only logged — and
`appStates[name]` is cleared. -/
def rollbackLoop (w : World) (dry : Bool) :
    List Application → St → St × List Ev
  | [], s => (s, [])
  | a :: rest, s =>
    if a.name ∈ s.started then
      let c := getClient w dry a.host s
      if c.1 then
        let r := runCommand w dry a.host a.stopCommand c.2.1
        let s2 := { r.2.1 with started := r.2.1.started.erase a.name }
        let k := rollbackLoop w dry rest s2
        (k.1, c.2.2 ++ [.rbStop a.host a.stopCommand] ++ r.2.2 ++ k.2)
      else
        let k := rollbackLoop w dry rest c.2.1
        (k.1, c.2.2 ++ k.2)
    else rollbackLoop w dry rest s

/-- The `rollback` (orchestrator.go): stop all started applications in reverse
order; always returns the "rollback completed due to failure" error. -/
def rollback (w : World) (dry : Bool) (apps : List Application) (s : St) :
    St × List Ev :=
  let k := rollbackLoop w dry apps.reverse s
  (k.1, .rollbackBegin :: k.2)

/-- The start phase of one `BringUp` iteration: issue the start command (only
logged in dry-run), mark the app started — before the post-start wait and
check — then run the post-start check (assumed successful in dry-run).
Returns whether the iteration may proceed. -/
def upStart (w : World) (dry : Bool) (a : Application) (s : St) :
    Bool × St × List Ev :=
  if dry then
    (true, { s with started := if a.name ∈ s.started then s.started
                               else a.name :: s.started },
     [.started a.name])
  else
    let st := runCommand w dry a.host a.startCommand s
    if st.1 then
      let s2 := { st.2.1 with
                  started := if a.name ∈ st.2.1.started then st.2.1.started
                             else a.name :: st.2.1.started }
      let ch := runCommand w dry a.host a.checkCommand s2
      (ch.1, ch.2.1, st.2.2 ++ [.started a.name] ++ ch.2.2)
    else (false, st.2.1, st.2.2)

/-- The body of one `BringUp` iteration after the select: get the client,
run the pre-start check (in dry-run the check is replaced by a simulated
failure, i.e. assumed not running), stop the app first when the check reported
it running, then start and post-check via `upStart`.  A `false` outcome makes
`BringUp` roll back. -/
def upStep (w : World) (dry : Bool) (a : Application) (s : St) :
    Bool × St × List Ev :=
  let c := getClient w dry a.host s
  if c.1 then
    let pre := if dry then (false, c.2.1, ([] : List Ev))
               else runCommand w dry a.host a.checkCommand c.2.1
    let t0 := c.2.2 ++ pre.2.2
    if pre.1 then
      if dry then
        let u := upStart w dry a pre.2.1
        (u.1, u.2.1, t0 ++ [.wouldStopApp a.name] ++ u.2.2)
      else
        let sp := runCommand w dry a.host a.stopCommand pre.2.1
        if sp.1 then
          let u := upStart w dry a sp.2.1
          (u.1, u.2.1, t0 ++ sp.2.2 ++ u.2.2)
        else (false, sp.2.1, t0 ++ sp.2.2)
    else
      let u := upStart w dry a pre.2.1
      (u.1, u.2.1, t0 ++ u.2.2)
  else (false, c.2.1, c.2.2)

/-- Result of `BringUp` / `BringDown`. -/
inductive UpResult where
  | ok           -- nil
  | flagFailed   -- flagManager.Acquire error, returned directly
  | canceled     -- ctx.Err(), returned directly from the select
  | rolledBack   -- the error returned by rollback()
deriving DecidableEq, Repr

/-- The step loop of `BringUp`.  Each iteration first runs the select over
ctx.Done, the monitor channel and default; in dry-run the monitor goroutine is
never spawned and nothing else writes to the channel, so the monitor case is
never ready.  When ctx.Done and the monitor signal are both ready Go picks one
of the two at random (`tieBreak`).  A canceled context returns ctx.Err()
directly — without rollback; a readable monitor signal triggers rollback, as
does any failure of the iteration body.  After the last application a final
2-second window polls the monitor channel once more (skipped in dry-run). -/
def bringUpLoop (w : World) (dry : Bool) (apps : List Application) :
    List Application → St → UpResult × St × List Ev
  | [], s =>
    if dry then (.ok, s, [])
    else
      let k := s.polls
      let s1 := { s with polls := k + 1 }
      if w.monPending k then
        let r := rollback w dry apps s1
        (.rolledBack, r.1, .pollMonitor :: r.2)
      else (.ok, s1, [])
  | a :: rest, s =>
    let k := s.polls
    let s1 := { s with polls := k + 1 }
    let mon := !dry && w.monPending k
    if w.ctxDone k && (!mon || w.tieBreak k) then (.canceled, s1, [.pollCanceled])
    else if mon then
      let r := rollback w dry apps s1
      (.rolledBack, r.1, .pollMonitor :: r.2)
    else
      let st := upStep w dry a s1
      if st.1 then
        let r2 := bringUpLoop w dry apps rest st.2.1
        (r2.1, r2.2.1, st.2.2 ++ r2.2.2)
      else
        let r := rollback w dry apps st.2.1
        (.rolledBack, r.1, st.2.2 ++ r.2)

/-- The `BringUp`: acquire the flag unless dry-run (the deferred release runs on
every exit path after a successful acquisition), spawn the monitor unless
dry-run, then drive the step loop. -/
def bringUp (w : World) (dry : Bool) (apps : List Application) :
    UpResult × St × List Ev :=
  if dry then bringUpLoop w true apps apps {}
  else if !w.acquire then (.flagFailed, {}, [])
  else
    let r := bringUpLoop w false apps apps {}
    (r.1, r.2.1, .flagAcquire :: .flagCreate :: (r.2.2 ++ [.flagRelease]))

/-- The reverse loop of `BringDown` (the argument list is already reversed):
observe cancellation between steps — returning ctx.Err() — then get the
client (a failure is logged and the loop continues), issue the stop command
and the post-stop check (both outcomes only logged; in dry-run both only
logged as would-run), and clear `appStates[name]`. -/
def bringDownLoop (w : World) (dry : Bool) :
    List Application → St → UpResult × St × List Ev
  | [], s => (.ok, s, [])
  | a :: rest, s =>
    let k := s.polls
    let s1 := { s with polls := k + 1 }
    if w.ctxDone k then (.canceled, s1, [.pollCanceled])
    else
      let c := getClient w dry a.host s1
      if c.1 then
        let sp := if dry then (true, c.2.1, ([.wouldStopApp a.name] : List Ev))
                  else runCommand w dry a.host a.stopCommand c.2.1
        let ch := if dry then (true, sp.2.1, ([] : List Ev))
                  else runCommand w dry a.host a.checkCommand sp.2.1
        let s2 := { ch.2.1 with started := ch.2.1.started.erase a.name }
        let r := bringDownLoop w dry rest s2
        (r.1, r.2.1, c.2.2 ++ sp.2.2 ++ ch.2.2 ++ r.2.2)
      else
        let r := bringDownLoop w dry rest c.2.1
        (r.1, r.2.1, c.2.2 ++ r.2.2)

/-- The `BringDown`: acquire the flag unless dry-run (deferred release on every
exit path, its error only logged), then stop all applications in reverse
order.  Per-step failures never abort the loop, so the only non-nil returns
are the flag acquisition failure and ctx.Err(). -/
def bringDown (w : World) (dry : Bool) (apps : List Application) :
    UpResult × St × List Ev :=
  if dry then bringDownLoop w true apps.reverse {}
  else if !w.acquire then (.flagFailed, {}, [])
  else
    let r := bringDownLoop w false apps.reverse {}
    (r.1, r.2.1, .flagAcquire :: .flagCreate :: (r.2.2 ++ [.flagRelease]))

/-- Function `monitorApps` as a trace function: each tick surveys the currently started
apps — `tick` lists, in map-iteration order, whether each survey (client
construction and check command) succeeded.  On the first failing entry the
goroutine sends one error to the buffered channel and returns; the end of the
tick list models context cancellation.  The result is the list of sent
signals, identified by their position in the tick. -/
def monitorApps : List (List Bool) → List Nat
  | [] => []
  | t :: rest =>
    match t.findIdx? (fun ok => ok = false) with
    | some i => [i]
    | none => monitorApps rest

/-- Event classifiers used by the frame theorems. -/
def Ev.isRemote : Ev → Bool
  | .remoteRun _ _ _ => true
  | _ => false

def Ev.isFlagOp : Ev → Bool
  | .flagAcquire => true
  | .flagCreate => true
  | .flagRelease => true
  | _ => false

def Ev.isWouldStopApp : Ev → Bool
  | .wouldStopApp _ => true
  | _ => false

def Ev.isStarted : Ev → Bool
  | .started _ => true
  | _ => false

def Ev.isRbStop : Ev → Bool
  | .rbStop _ _ => true
  | _ => false

/-- The event kinds a rollback segment can emit. -/
def Ev.inRb : Ev → Bool
  | .clientBuild _ _ => true
  | .remoteRun _ _ _ => true
  | .wouldRun _ _ => true
  | .rbStop _ _ => true
  | .rollbackBegin => true
  | _ => false

/-- The event kinds a forward `upStep` segment can emit. -/
def Ev.inStep : Ev → Bool
  | .clientBuild _ _ => true
  | .remoteRun _ _ _ => true
  | .wouldRun _ _ => true
  | .wouldStopApp _ => true
  | .started _ => true
  | _ => false

end V1

namespace V2

/-- A host of the generation-2 config: only the hostname matters to the
orchestrator (user and key feed the SSH transport). -/
structure Host where
  hostname : String
deriving DecidableEq, Repr

/-- A step of the generation-2 config: name, type ("dependency",
"application" or "command" — kept as a string, as the orchestrator switches on
it and has a default branch), target host aliases and the command strings. -/
structure Step where
  name : String
  type : String
  hosts : List String
  start : String
  check : String
  stop : String
  run : String
deriving DecidableEq, Repr

/-- A generation-2 environment: the host map and the declared sequence. -/
structure Environment where
  hosts : List (String × Host)
  sequence : List Step
deriving DecidableEq, Repr

/-- The generation-2 config: a map from environment name to environment. -/
structure Config where
  environments : List (String × Environment)
deriving DecidableEq, Repr

/-- Run-mode options of the generation-2 orchestrator. -/
structure Opts where
  handleDeps : Bool
  stopDeps : Bool
  dryRun : Bool
deriving DecidableEq, Repr

/-- Environment oracle: the outcome of the n-th SSH client construction and of
the n-th `client.Execute` call. -/
structure World where
  buildOk : Nat → Bool
  execOk : Nat → Bool

/-- Run state: the hosts with a pooled client and the oracle cursors. -/
structure St where
  pool : List String := []
  builds : Nat := 0
  execs : Nat := 0
deriving DecidableEq, Repr

/-- Observable events of a generation-2 run. -/
inductive Ev where
  | execute (host cmd : String) (ok : Bool)  -- client.Execute ran remotely
  | startSvc (step : String)                 -- startService fan-out (non-dry)
  | stopSvc (step : String)                  -- stopService fan-out (non-dry)
  | wouldStart (step : String)               -- dry run - would start service
  | wouldStop (step : String)                -- dry run - would stop service
  | wouldRunCmd (step : String)              -- dry run - would execute command
  | rbStep (step : String)                   -- handleFailure rolling back step
deriving DecidableEq, Repr

/-- Errors of a generation-2 run. -/
inductive Err where
  | envMissing (e : String)
  | hostMissing (h : String)
  | clientFailed (h : String)
  | execFailed (x : String)
  | notRunning (s : String)
  | unknownType (t : String)
  | failedAt (i : Nat)   -- "orchestration failed at step i+1" (0-based here)
deriving DecidableEq, Repr

/-- The `ssh.Manager.GetClient` of the generation-2 ssh package (bundled after
the config test among the unnamed sources): clients are cached in a map keyed
by the hostname; a cache hit is returned as-is, otherwise a client is
constructed — resolving user and key from the host overrides or the defaults,
reading and parsing the key file, and dialing, any of which may fail — and
only a success is stored in the map, so failures are never cached.  The
construction outcome is the oracle; user, key and timeout resolution only
feed the transport. -/
def getClient (w : World) (h : String) (s : St) : Bool × St :=
  if h ∈ s.pool then (true, s)
  else
    let ok := w.buildOk s.builds
    (ok, { s with builds := s.builds + 1,
                  pool := if ok then h :: s.pool else s.pool })

/-- The `client.Execute`: one remote command execution. -/
def execute (w : World) (h cmd : String) (s : St) : Bool × St × List Ev :=
  let ok := w.execOk s.execs
  (ok, { s with execs := s.execs + 1 }, [.execute h cmd ok])

/-- The host loop of `isServiceRunning`: look the alias up — a missing host is
an error — get a client — a construction failure is an error — and execute
the check command: a command failure means "not running" and ends the loop;
if every host checks out the service is running. -/
def checkHosts (w : World) (env : Environment) (check : String) :
    List String → St → (Except Err Bool) × St × List Ev
  | [], s => (.ok true, s, [])
  | hn :: rest, s =>
    match env.hosts.lookup hn with
    | none => (.error (.hostMissing hn), s, [])
    | some h =>
      let c := getClient w h.hostname s
      if c.1 then
        let e := execute w h.hostname check c.2
        if e.1 then
          let r := checkHosts w env check rest e.2.1
          (r.1, r.2.1, e.2.2 ++ r.2.2)
        else (.ok false, e.2.1, e.2.2)
      else (.error (.clientFailed hn), c.2, [])

/-- The `isServiceRunning`: in dry-run the check is short-circuited to running
("dry run - setting service running check to true"); otherwise the check
command runs on every host in order. -/
def isServiceRunning (w : World) (dry : Bool) (step : Step)
    (env : Environment) (s : St) : (Except Err Bool) × St × List Ev :=
  if dry then (.ok true, s, [])
  else checkHosts w env step.check step.hosts s

/-- The fan-out of `startService` / `stopService` / `handleCommand` over a
hosts of a step: a missing host alias returns immediately; client-construction
and execution failures are collected without stopping the other hosts.  The
boolean result says whether any per-host error was collected. -/
def fanOutHosts (w : World) (env : Environment) (cmd : String) :
    List String → St → (Except Err Bool) × St × List Ev
  | [], s => (.ok false, s, [])
  | hn :: rest, s =>
    match env.hosts.lookup hn with
    | none => (.error (.hostMissing hn), s, [])
    | some h =>
      let c := getClient w h.hostname s
      if c.1 then
        let e := execute w h.hostname cmd c.2
        let r := fanOutHosts w env cmd rest e.2.1
        match r.1 with
        | .error er => (.error er, r.2.1, e.2.2 ++ r.2.2)
        | .ok f => (.ok (f || !e.1), r.2.1, e.2.2 ++ r.2.2)
      else
        let r := fanOutHosts w env cmd rest c.2
        match r.1 with
        | .error er => (.error er, r.2.1, r.2.2)
        | .ok _ => (.ok true, r.2.1, r.2.2)

/-- The `startService`: in dry-run only a log line; otherwise fan out the start
command and fail if any host failed. -/
def startService (w : World) (dry : Bool) (step : Step) (env : Environment)
    (s : St) : (Except Err Unit) × St × List Ev :=
  if dry then (.ok (), s, [.wouldStart step.name])
  else
    let r := fanOutHosts w env step.start step.hosts s
    match r.1 with
    | .error e => (.error e, r.2.1, .startSvc step.name :: r.2.2)
    | .ok true => (.error (.execFailed step.name), r.2.1,
                   .startSvc step.name :: r.2.2)
    | .ok false => (.ok (), r.2.1, .startSvc step.name :: r.2.2)

/-- The `stopService`: in dry-run only a log line; otherwise fan out the stop
command and fail if any host failed. -/
def stopService (w : World) (dry : Bool) (step : Step) (env : Environment)
    (s : St) : (Except Err Unit) × St × List Ev :=
  if dry then (.ok (), s, [.wouldStop step.name])
  else
    let r := fanOutHosts w env step.stop step.hosts s
    match r.1 with
    | .error e => (.error e, r.2.1, .stopSvc step.name :: r.2.2)
    | .ok true => (.error (.execFailed step.name), r.2.1,
                   .stopSvc step.name :: r.2.2)
    | .ok false => (.ok (), r.2.1, .stopSvc step.name :: r.2.2)

/-- The `handleCommand`: in dry-run only a log line; otherwise fan out the run
command and fail if any host failed. -/
def handleCommand (w : World) (dry : Bool) (step : Step) (env : Environment)
    (s : St) : (Except Err Unit) × St × List Ev :=
  if dry then (.ok (), s, [.wouldRunCmd step.name])
  else
    let r := fanOutHosts w env step.run step.hosts s
    match r.1 with
    | .error e => (.error e, r.2.1, r.2.2)
    | .ok true => (.error (.execFailed step.name), r.2.1, r.2.2)
    | .ok false => (.ok (), r.2.1, r.2.2)

/-- The `handleApplicationUp`: check the running state; when running, log
"application is already running; skipping start", issue the stop command and
return — without any start; when not running, start the application. -/
def handleApplicationUp (w : World) (o : Opts) (step : Step)
    (env : Environment) (s : St) : (Except Err Unit) × St × List Ev :=
  let r := isServiceRunning w o.dryRun step env s
  match r.1 with
  | .error e => (.error e, r.2.1, r.2.2)
  | .ok true =>
      let st := stopService w o.dryRun step env r.2.1
      (st.1, st.2.1, r.2.2 ++ st.2.2)
  | .ok false =>
      let st := startService w o.dryRun step env r.2.1
      (st.1, st.2.1, r.2.2 ++ st.2.2)

/-- The `handleDependencyUp` (handle_deps = true): when running, stop the
dependency; then start it. -/
def handleDependencyUp (w : World) (o : Opts) (step : Step)
    (env : Environment) (s : St) : (Except Err Unit) × St × List Ev :=
  let r := isServiceRunning w o.dryRun step env s
  match r.1 with
  | .error e => (.error e, r.2.1, r.2.2)
  | .ok true =>
      let sp := stopService w o.dryRun step env r.2.1
      match sp.1 with
      | .error e => (.error e, sp.2.1, r.2.2 ++ sp.2.2)
      | .ok _ =>
          let st := startService w o.dryRun step env sp.2.1
          (st.1, st.2.1, r.2.2 ++ sp.2.2 ++ st.2.2)
  | .ok false =>
      let st := startService w o.dryRun step env r.2.1
      (st.1, st.2.1, r.2.2 ++ st.2.2)

/-- The `verifyDependencyRunning` (handle_deps = false): the dependency must
already be running; "dependency %s is not running" otherwise. -/
def verifyDependencyRunning (w : World) (o : Opts) (step : Step)
    (env : Environment) (s : St) : (Except Err Unit) × St × List Ev :=
  let r := isServiceRunning w o.dryRun step env s
  match r.1 with
  | .error e => (.error e, r.2.1, r.2.2)
  | .ok true => (.ok (), r.2.1, r.2.2)
  | .ok false => (.error (.notRunning step.name), r.2.1, r.2.2)

/-- The `handleUp`: dispatch on the step type. -/
def handleUp (w : World) (o : Opts) (step : Step) (env : Environment)
    (s : St) : (Except Err Unit) × St × List Ev :=
  if step.type == "application" then handleApplicationUp w o step env s
  else if step.type == "dependency" then
    if o.handleDeps then handleDependencyUp w o step env s
    else verifyDependencyRunning w o step env s
  else (.error (.unknownType step.type), s, [])

/-- The host loop of `performHealthCheck`: any failure — missing host, client
construction, check command — is a health-check failure. -/
def healthHosts (w : World) (env : Environment) (check : String) :
    List String → St → (Except Err Unit) × St × List Ev
  | [], s => (.ok (), s, [])
  | hn :: rest, s =>
    match env.hosts.lookup hn with
    | none => (.error (.hostMissing hn), s, [])
    | some h =>
      let c := getClient w h.hostname s
      if c.1 then
        let e := execute w h.hostname check c.2
        if e.1 then
          let r := healthHosts w env check rest e.2.1
          (r.1, r.2.1, e.2.2 ++ r.2.2)
        else (.error (.execFailed hn), e.2.1, e.2.2)
      else (.error (.clientFailed hn), c.2, [])

/-- The `performHealthCheck`: skipped in dry-run. -/
def performHealthCheck (w : World) (o : Opts) (step : Step)
    (env : Environment) (s : St) : (Except Err Unit) × St × List Ev :=
  if o.dryRun then (.ok (), s, [])
  else healthHosts w env step.check step.hosts s

/-- The reverse loop of `handleFailure` (the argument list is the reversed
prefix before the failed step): every non-command step is rolled back with
`stopService`, stop errors only logged. -/
def rollbackSteps (w : World) (o : Opts) (env : Environment) :
    List Step → St → St × List Ev
  | [], s => (s, [])
  | st :: rest, s =>
    if st.type == "command" then rollbackSteps w o env rest s
    else
      let r := stopService w o.dryRun st env s
      let k := rollbackSteps w o env rest r.2.1
      (k.1, .rbStep st.name :: (r.2.2 ++ k.2))

/-- The `handleFailure`: roll back, in reverse order, every non-command step that
precedes the failed step — whether it was started, merely verified, or
skipped — and return "orchestration failed at step failedStepIndex+1". -/
def handleFailure (w : World) (o : Opts) (env : Environment) (i : Nat)
    (s : St) : St × List Ev :=
  rollbackSteps w o env ((env.sequence.take i).reverse) s

/-- The dispatch at the head of each `Up` iteration: the switch over the
step type. -/
def upDispatch (w : World) (o : Opts) (step : Step) (env : Environment)
    (s : St) : (Except Err Unit) × St × List Ev :=
  if step.type == "dependency" || step.type == "application" then
    handleUp w o step env s
  else if step.type == "command" then
    handleCommand w o.dryRun step env s
  else (.error (.unknownType step.type), s, [])

/-- The step loop of `Up`: dispatch each step by type; on any error run
`handleFailure` and return its error; for application steps — and dependency
steps when handle_deps — wait and run the post-start health check (skipped in
dry-run), a failure again triggering `handleFailure`. -/
def upSteps (w : World) (o : Opts) (env : Environment) :
    List (Nat × Step) → St → (Except Err Unit) × St × List Ev
  | [], s => (.ok (), s, [])
  | (i, step) :: rest, s =>
    let r := upDispatch w o step env s
    match r.1 with
    | .error _ =>
        let hf := handleFailure w o env i r.2.1
        (.error (.failedAt i), hf.1, r.2.2 ++ hf.2)
    | .ok _ =>
        if (step.type == "application"
            || (step.type == "dependency" && o.handleDeps)) && !o.dryRun then
          let hc := performHealthCheck w o step env r.2.1
          match hc.1 with
          | .error _ =>
              let hf := handleFailure w o env i hc.2.1
              (.error (.failedAt i), hf.1, r.2.2 ++ hc.2.2 ++ hf.2)
          | .ok _ =>
              let k := upSteps w o env rest hc.2.1
              (k.1, k.2.1, r.2.2 ++ hc.2.2 ++ k.2.2)
        else
          let k := upSteps w o env rest r.2.1
          (k.1, k.2.1, r.2.2 ++ k.2.2)

/-- Function `Up` of the generation-2 orchestrator. -/
def up (w : World) (o : Opts) (cfg : Config) (envName : String) :
    (Except Err Unit) × St × List Ev :=
  match cfg.environments.lookup envName with
  | none => (.error (.envMissing envName), {}, [])
  | some env => upSteps w o env env.sequence.enum {}

/-- The reverse loop of `Down`: dependencies are skipped unless stop_deps;
applications and managed dependencies are stopped, stop errors only logged;
command steps are skipped; unknown types only logged.  The loop never
aborts. -/
def downSteps (w : World) (o : Opts) (env : Environment) :
    List Step → St → St × List Ev
  | [], s => (s, [])
  | step :: rest, s =>
    if step.type == "dependency" || step.type == "application" then
      if step.type == "dependency" && !o.stopDeps then
        downSteps w o env rest s
      else
        let r := stopService w o.dryRun step env s
        let k := downSteps w o env rest r.2.1
        (k.1, r.2.2 ++ k.2)
    else downSteps w o env rest s

/-- Function `Down` of the generation-2 orchestrator: reverse traversal; always returns
nil once the environment was found. -/
def down (w : World) (o : Opts) (cfg : Config) (envName : String) :
    (Except Err Unit) × St × List Ev :=
  match cfg.environments.lookup envName with
  | none => (.error (.envMissing envName), {}, [])
  | some env =>
      let k := downSteps w o env env.sequence.reverse {}
      (.ok (), k.1, k.2)

/-- Event classifiers. -/
def Ev.isExecute : Ev → Bool
  | .execute _ _ _ => true
  | _ => false

def Ev.isWouldStop : Ev → Bool
  | .wouldStop _ => true
  | _ => false

def Ev.isStopSvc : Ev → Bool
  | .stopSvc _ => true
  | _ => false

def Ev.isRbStep : Ev → Bool
  | .rbStep _ => true
  | _ => false

def Ev.isStartSvc : Ev → Bool
  | .startSvc _ => true
  | _ => false

end V2

namespace Scen

/-- Concrete scenario data used by the counterexample and witness theorems. -/
def a1 : V1.Application := ⟨"a1", "h1", "start1", "stop1", "check1"⟩

def a2 : V1.Application := ⟨"a2", "h2", "start2", "stop2", "check2"⟩

/-- A generation-1 world: flag free, context canceled at the second select,
no monitor signal, every client builds, every command succeeds except the
first (the pre-start check of a1, reporting the app not running). -/
def wCancel : V1.World :=
  ⟨true, fun k => k == 1, fun _ => false, fun _ => false,
   fun _ => true, fun n => n != 0⟩

/-- A generation-1 world: nothing cancels, the monitor signal becomes readable
at the third select (the final window), both apps come up cleanly (pre-start
checks report not running, everything else succeeds). -/
def wMonitor : V1.World :=
  ⟨true, fun _ => false, fun k => k == 2, fun _ => false,
   fun _ => true, fun n => n != 0 && n != 3⟩

/-- A generation-1 world: the pre-start check reports the app running, and
every command — the stop, the start, the post-start check — succeeds. -/
def wRunning : V1.World :=
  ⟨true, fun _ => false, fun _ => false, fun _ => false,
   fun _ => true, fun _ => true⟩

/-- A generation-1 world: a1 comes up (check not running, start, check ok),
the start of a2 fails; during rollback the stop of a1 fails — commands 0..6 are
check1 f, start1 t, check1 t, check2 f, start2 f, stop1 f. -/
def wStartFail : V1.World :=
  ⟨true, fun _ => false, fun _ => false, fun _ => false,
   fun _ => true, fun n => n == 1 || n == 2⟩

def appA : V2.Step :=
  ⟨"a", "application", ["H"], "start-a", "check-a", "stop-a", ""⟩

def depD : V2.Step :=
  ⟨"d", "dependency", ["HD"], "start-d", "check-d", "stop-d", ""⟩

def cmdC : V2.Step :=
  ⟨"c", "command", ["H"], "", "", "", "run-c"⟩

def cfg1 : V2.Config := ⟨[("dev", ⟨[("H", ⟨"H"⟩)], [appA]⟩)]⟩

def cfg2 : V2.Config :=
  ⟨[("dev", ⟨[("H", ⟨"H"⟩), ("HD", ⟨"HD"⟩)], [depD, appA]⟩)]⟩

def cfg3 : V2.Config :=
  ⟨[("dev", ⟨[("H", ⟨"H"⟩), ("HD", ⟨"HD"⟩)], [depD, cmdC, appA]⟩)]⟩

def oUp : V2.Opts := ⟨false, false, false⟩

def oDry : V2.Opts := ⟨false, false, true⟩

/-- A generation-2 world: every client builds; the pre-start check of the
application reports it running (exec 0), the stop succeeds (exec 1), the
post-start health check fails (exec 2). -/
def wRunThenFail : V2.World := ⟨fun _ => true, fun n => n != 2⟩

/-- A generation-2 world for the [dep, app] sequence with handle_deps=false:
the dependency verifies as running (exec 0), the pre-start check of the application
fails (exec 1, not running), its start fails (exec 2), and the rollback stop
of the dependency succeeds (exec 3). -/
def wStartFail2 : V2.World := ⟨fun _ => true, fun n => n == 0 || n == 3⟩

/-- A generation-2 world where everything succeeds. -/
def wAll : V2.World := ⟨fun _ => true, fun _ => true⟩

/-- A generation-2 world where every client construction and execution
fails. -/
def wBad : V2.World := ⟨fun _ => false, fun _ => false⟩

/-- A generation-1 world for bring-down: the flag acquires, nothing cancels,
and every client construction and command fails. -/
def wDown : V1.World :=
  ⟨true, fun _ => false, fun _ => false, fun _ => false,
   fun _ => false, fun _ => false⟩

/-- The environment of `cfg2`. -/
def env2 : V2.Environment := ⟨[("H", ⟨"H"⟩), ("HD", ⟨"HD"⟩)], [depD, appA]⟩

end Scen

/-- Claim C4: the plain `flag.go` `Acquire` cited by the claim creates the flag
file but writes no bytes into it, so after a successful acquisition the file
holds no metadata record — contradicting the flag tests, which unmarshal the
file into `FlagMetadata` and check pipeline id, commit ref, project name,
environment and timestamp.  The metadata-writing sibling version does write the
record, matching the tests. -/
theorem c4_flag_file_written_empty :
    (Flag.acquire ⟨false, none⟩ false true false).1 = .ok ∧
    (Flag.acquire ⟨false, none⟩ false true false).2.flagFile = some .empty ∧
    (∀ m : Flag.FlagMetadata,
      ((Flag.acquire ⟨false, none⟩ false true false).2.flagFile
        == some (.record m)) = false) ∧
    (∀ m : Flag.FlagMetadata,
      (Flag.acquireMeta ⟨false, none⟩ m false true false false false).2.flagFile
        = some (.record m)) :=
  ⟨rfl, rfl, fun _ => rfl, fun _ => rfl⟩

/-- Claim C5 counterexample: with the lock held and the flag file present, a
`Release` whose file removal fails with an error other than ENOENT returns the
error immediately and leaves the advisory lock held — the unlock step is never
reached, so release is not tolerant of removal failure. -/
theorem c5_release_keeps_lock_on_remove_error :
    (Flag.release ⟨true, some .empty⟩ true).1 = .removeError ∧
    (Flag.release ⟨true, some .empty⟩ true).2.lockHeld = true := ⟨rfl, rfl⟩

/-- Claim C5 (amended): acquisition is atomic — whenever flag-file creation
(or, in the metadata version, marshalling or writing) fails after a successful
`TryLock`, the advisory lock is released before `Acquire` returns — and
`Release` tolerates a missing flag file (it still unlocks and succeeds), but
when removal of an existing flag file fails with an error other than ENOENT,
`Release` returns that error without unlocking the advisory lock. -/
theorem c5_acquire_atomic_release_behavior (s : Flag.FlagState)
    (m : Flag.FlagMetadata) (rf : Bool) :
    (((Flag.acquire s false true true).1 == Flag.AcquireResult.ok) = false ∧
      (Flag.acquire s false true true).2.lockHeld = false) ∧
    (((Flag.acquireMeta s m false true false true true).1
        == Flag.AcquireResult.ok) = false ∧
      (Flag.acquireMeta s m false true false true true).2.lockHeld = false) ∧
    (s.flagFile = none →
      (Flag.release s rf).1 = .ok ∧ (Flag.release s rf).2.lockHeld = false) ∧
    (s.flagFile.isSome = true →
      (Flag.release s true).1 = .removeError ∧
      (Flag.release s true).2.lockHeld = s.lockHeld) := by
  rcases s with ⟨lh, ff⟩
  refine ⟨?_, ?_, ?_, ?_⟩
  · cases ff <;> exact ⟨rfl, rfl⟩
  · cases ff <;> exact ⟨rfl, rfl⟩
  · intro h
    cases ff with
    | none => exact ⟨rfl, rfl⟩
    | some c => exact absurd h (by simp)
  · intro h
    cases ff with
    | none => simp at h
    | some c => exact ⟨rfl, rfl⟩

/-- Claim C5 witness: a concrete acquisition failure releases the lock, and a
concrete release over a missing file unlocks and succeeds. -/
theorem c5_acquire_atomic_release_behavior_witness :
    (Flag.release ⟨true, none⟩ false).1 = .ok ∧
    (Flag.release ⟨true, none⟩ false).2.lockHeld = false :=
  (c5_acquire_atomic_release_behavior ⟨true, none⟩
    ⟨"", "", "", "", ""⟩ false).2.2.1 rfl

/-- Claim C9: calling `Release` on a flag manager that does not hold the flag
(no flag file on disk) succeeds: `os.Remove` fails with ENOENT, which is
tolerated, and `flock.Unlock` on an unheld lock is a no-op returning nil. -/
theorem c9_release_without_acquire (s : Flag.FlagState) (rf : Bool)
    (h : s.flagFile = none) :
    (Flag.release s rf).1 = .ok ∧ (Flag.release s rf).2.lockHeld = false := by
  rcases s with ⟨lh, ff⟩
  cases ff with
  | none => exact ⟨rfl, rfl⟩
  | some c => exact absurd h (by simp)

/-- Claim C9 witness: releasing a never-acquired flag manager returns success. -/
theorem c9_release_without_acquire_witness :
    (Flag.release ⟨false, none⟩ false).1 = .ok ∧
    (Flag.release ⟨false, none⟩ false).2.lockHeld = false :=
  c9_release_without_acquire ⟨false, none⟩ false rfl


/-! Helper lemmas about the generation-1 primitives. -/

theorem getClient_started (w : V1.World) (d : Bool) (h : String) (s : V1.St) :
    (V1.getClient w d h s).2.1.started = s.started := by
  unfold V1.getClient
  split
  · rfl
  · split <;> rfl

theorem getClient_pool_mono (w : V1.World) (d : Bool) (h : String)
    (s : V1.St) (x : String) (hx : x ∈ s.pool) :
    x ∈ (V1.getClient w d h s).2.1.pool := by
  unfold V1.getClient
  split
  · exact hx
  · split
    · exact List.mem_cons_of_mem _ hx
    · show x ∈ (if w.buildOk s.builds = true then h :: s.pool else s.pool)
      split
      · exact List.mem_cons_of_mem _ hx
      · exact hx

theorem getClient_pool_self (w : V1.World) (d : Bool) (h : String)
    (s : V1.St) (hok : (V1.getClient w d h s).1 = true) :
    h ∈ (V1.getClient w d h s).2.1.pool := by
  revert hok
  unfold V1.getClient
  split
  · intro _; assumption
  · split
    · intro _; exact List.mem_cons_self _ _
    · intro hok
      show h ∈ (if w.buildOk s.builds = true then h :: s.pool else s.pool)
      simp only at hok
      rw [hok]
      exact List.mem_cons_self _ _

theorem getClient_ev (w : V1.World) (d : Bool) (h : String) (s : V1.St) :
    ∀ e ∈ (V1.getClient w d h s).2.2, ∃ ok, e = V1.Ev.clientBuild h ok := by
  unfold V1.getClient
  split
  · intro e he; simp at he
  · split
    · intro e he; simp at he
    · intro e he
      simp only [List.mem_singleton] at he
      exact ⟨_, he⟩

theorem runCommand_started (w : V1.World) (d : Bool) (h c : String)
    (s : V1.St) : (V1.runCommand w d h c s).2.1.started = s.started := by
  unfold V1.runCommand
  split <;> rfl

theorem runCommand_pool (w : V1.World) (d : Bool) (h c : String)
    (s : V1.St) : (V1.runCommand w d h c s).2.1.pool = s.pool := by
  unfold V1.runCommand
  split <;> rfl

theorem runCommand_ev (w : V1.World) (d : Bool) (h c : String) (s : V1.St) :
    ∀ e ∈ (V1.runCommand w d h c s).2.2,
      e = V1.Ev.wouldRun h c ∨ ∃ ok, e = V1.Ev.remoteRun h c ok := by
  unfold V1.runCommand
  split
  · intro e he
    simp only [List.mem_singleton] at he
    exact Or.inl he
  · intro e he
    simp only [List.mem_singleton] at he
    exact Or.inr ⟨_, he⟩

/-! Helper lemmas about the generation-1 rollback. -/

theorem rollbackLoop_kinds (w : V1.World) (d : Bool)
    (rev : List V1.Application) (s : V1.St) :
    ∀ e ∈ (V1.rollbackLoop w d rev s).2, e.inRb = true := by
  induction rev generalizing s with
  | nil => intro e he; simp [V1.rollbackLoop] at he
  | cons b rest ih =>
    intro e he
    simp only [V1.rollbackLoop] at he
    split at he
    · split at he
      · simp only [List.mem_append, List.mem_cons, List.not_mem_nil,
          or_false] at he
        rcases he with ((hc | hrb) | hr) | hk
        · obtain ⟨ok, rfl⟩ := getClient_ev w d b.host s e hc
          rfl
        · rw [hrb]; rfl
        · rcases runCommand_ev w d b.host b.stopCommand _ e hr with rfl | ⟨ok, rfl⟩
          · rfl
          · rfl
        · exact ih _ e hk
      · simp only [List.mem_append] at he
        rcases he with hc | hk
        · obtain ⟨ok, rfl⟩ := getClient_ev w d b.host s e hc
          rfl
        · exact ih _ e hk
    · exact ih _ e he

theorem rollbackLoop_cover (w : V1.World) (d : Bool)
    (rev : List V1.Application) (s : V1.St)
    (hnd : (rev.map V1.Application.name).Nodup)
    (x : V1.Application) (hx : x ∈ rev)
    (hs : x.name ∈ s.started) (hp : x.host ∈ s.pool) :
    V1.Ev.rbStop x.host x.stopCommand ∈ (V1.rollbackLoop w d rev s).2 := by
  induction rev generalizing s with
  | nil => cases hx
  | cons b rest ih =>
    rcases List.mem_cons.mp hx with rfl | hx'
    · simp only [V1.rollbackLoop]
      rw [if_pos hs]
      have hc : (V1.getClient w d x.host s).1 = true := by
        unfold V1.getClient
        rw [if_pos hp]
      rw [if_pos hc]
      simp
    · have hne : x.name ≠ b.name := by
        intro heq
        have hb : b.name ∉ rest.map V1.Application.name :=
          (List.nodup_cons.mp hnd).1
        exact hb (heq ▸ List.mem_map_of_mem _ hx')
      have hnd' := (List.nodup_cons.mp hnd).2
      simp only [V1.rollbackLoop]
      split
      · by_cases hcb : (V1.getClient w d b.host s).1 = true
        · rw [if_pos hcb]
          have hs2 : x.name ∈
              ((V1.runCommand w d b.host b.stopCommand
                (V1.getClient w d b.host s).2.1).2.1.started.erase b.name) := by
            rw [(List.mem_erase_of_ne hne), runCommand_started,
              getClient_started]
            exact hs
          have hp2 : x.host ∈
              (V1.runCommand w d b.host b.stopCommand
                (V1.getClient w d b.host s).2.1).2.1.pool := by
            rw [runCommand_pool]
            exact getClient_pool_mono w d b.host s x.host hp
          have := ih { (V1.runCommand w d b.host b.stopCommand
              (V1.getClient w d b.host s).2.1).2.1 with
              started := (V1.runCommand w d b.host b.stopCommand
                (V1.getClient w d b.host s).2.1).2.1.started.erase b.name }
            hnd' hx' hs2 hp2
          simp only [List.mem_append, List.mem_cons]
          tauto
        · rw [if_neg hcb]
          have hs2 : x.name ∈ (V1.getClient w d b.host s).2.1.started := by
            rw [getClient_started]; exact hs
          have hp2 : x.host ∈ (V1.getClient w d b.host s).2.1.pool :=
            getClient_pool_mono w d b.host s x.host hp
          have := ih _ hnd' hx' hs2 hp2
          simp only [List.mem_append, List.mem_cons]
          tauto
      · exact ih _ hnd' hx' hs hp

/-! Helper lemmas about the generation-1 forward step. -/

theorem upStart_pool (w : V1.World) (d : Bool) (a : V1.Application)
    (s : V1.St) : (V1.upStart w d a s).2.1.pool = s.pool := by
  simp only [V1.upStart]
  split
  · rfl
  · split
    · simp [runCommand_pool]
    · simp [runCommand_pool]

theorem upStart_started_mono (w : V1.World) (d : Bool) (a : V1.Application)
    (s : V1.St) (n : String) (hn : n ∈ s.started) :
    n ∈ (V1.upStart w d a s).2.1.started := by
  simp only [V1.upStart]
  split
  · simp only
    split
    · exact hn
    · exact List.mem_cons_of_mem _ hn
  · split
    · simp only [runCommand_started]
      split
      · exact hn
      · exact List.mem_cons_of_mem _ hn
    · rw [runCommand_started]; exact hn

theorem upStart_char (w : V1.World) (d : Bool) (a : V1.Application)
    (s : V1.St) (n : String)
    (hn : n ∈ (V1.upStart w d a s).2.1.started) :
    n ∈ s.started ∨ n = a.name := by
  revert hn
  simp only [V1.upStart]
  split
  · simp only
    split
    · exact fun hn => Or.inl hn
    · intro hn
      rcases List.mem_cons.mp hn with rfl | hn
      · exact Or.inr rfl
      · exact Or.inl hn
  · split
    · simp only [runCommand_started]
      split
      · intro hn
        exact Or.inl hn
      · intro hn
        rcases List.mem_cons.mp hn with rfl | hn
        · exact Or.inr rfl
        · exact Or.inl hn
    · intro hn
      rw [runCommand_started] at hn
      exact Or.inl hn

theorem upStart_ev_started (w : V1.World) (d : Bool) (a : V1.Application)
    (s : V1.St) (n : String)
    (hn : V1.Ev.started n ∈ (V1.upStart w d a s).2.2) :
    n = a.name ∧ n ∈ (V1.upStart w d a s).2.1.started := by
  revert hn
  simp only [V1.upStart]
  split
  · intro hn
    simp only [List.mem_singleton, V1.Ev.started.injEq] at hn
    subst hn
    constructor
    · rfl
    · simp only
      split
      · assumption
      · exact List.mem_cons_self _ _
  · split
    · intro hn
      simp only [List.append_assoc, List.mem_append, List.mem_cons,
        List.not_mem_nil, or_false] at hn
      have hname : n = a.name := by
        rcases hn with h | h | h
        · rcases runCommand_ev w d a.host a.startCommand s _ h with h' | ⟨ok, h'⟩ <;>
            simp at h'
        · exact (V1.Ev.started.injEq .. ▸ congrArg (fun z => z) h ▸ by
            cases h; rfl)
        · rcases runCommand_ev w d a.host a.checkCommand _ _ h with h' | ⟨ok, h'⟩ <;>
            simp at h'
      subst hname
      refine ⟨rfl, ?_⟩
      simp only [runCommand_started]
      split
      · assumption
      · exact List.mem_cons_self _ _
    · intro hn
      rcases runCommand_ev w d a.host a.startCommand s _ hn with h' | ⟨ok, h'⟩ <;>
        simp at h'

theorem upStart_ev_kinds (w : V1.World) (d : Bool) (a : V1.Application)
    (s : V1.St) : ∀ e ∈ (V1.upStart w d a s).2.2, e.inStep = true := by
  simp only [V1.upStart]
  split
  · intro e he
    simp only [List.mem_singleton] at he
    rw [he]; rfl
  · split
    · intro e he
      simp only [List.append_assoc, List.mem_append, List.mem_cons,
        List.not_mem_nil, or_false] at he
      rcases he with h | h | h
      · rcases runCommand_ev w d a.host a.startCommand s _ h with rfl | ⟨ok, rfl⟩ <;> rfl
      · rw [h]; rfl
      · rcases runCommand_ev w d a.host a.checkCommand _ _ h with rfl | ⟨ok, rfl⟩ <;> rfl
    · intro e he
      rcases runCommand_ev w d a.host a.startCommand s _ he with rfl | ⟨ok, rfl⟩ <;> rfl

theorem upStep_pool_mono (w : V1.World) (d : Bool) (a : V1.Application)
    (s : V1.St) (x : String) (hx : x ∈ s.pool) :
    x ∈ (V1.upStep w d a s).2.1.pool := by
  have hgc := getClient_pool_mono w d a.host s x hx
  by_cases hd : d = true
  · subst hd
    simp only [V1.upStep, if_true]
    split
    · simp only [Bool.false_eq_true, if_false, upStart_pool]
      exact hgc
    · exact hgc
  · replace hd : d = false := by revert hd; cases d <;> simp
    subst hd
    simp only [V1.upStep, Bool.false_eq_true, if_false]
    split
    · split
      · split
        · rw [upStart_pool, runCommand_pool, runCommand_pool]
          exact hgc
        · rw [runCommand_pool, runCommand_pool]
          exact hgc
      · rw [upStart_pool, runCommand_pool]
        exact hgc
    · exact hgc

theorem upStep_started_mono (w : V1.World) (d : Bool) (a : V1.Application)
    (s : V1.St) (n : String) (hn : n ∈ s.started) :
    n ∈ (V1.upStep w d a s).2.1.started := by
  have hgc : n ∈ (V1.getClient w d a.host s).2.1.started := by
    rw [getClient_started]; exact hn
  by_cases hd : d = true
  · subst hd
    simp only [V1.upStep, if_true]
    split
    · simp only [Bool.false_eq_true, if_false]
      exact upStart_started_mono w true a _ n hgc
    · exact hgc
  · replace hd : d = false := by revert hd; cases d <;> simp
    subst hd
    simp only [V1.upStep, Bool.false_eq_true, if_false]
    split
    · split
      · split
        · refine upStart_started_mono w false a _ n ?_
          rw [runCommand_started, runCommand_started, getClient_started]
          exact hn
        · rw [runCommand_started, runCommand_started, getClient_started]
          exact hn
      · refine upStart_started_mono w false a _ n ?_
        rw [runCommand_started]
        exact hgc
    · exact hgc

theorem upStep_char (w : V1.World) (d : Bool) (a : V1.Application)
    (s : V1.St) (n : String)
    (hn : n ∈ (V1.upStep w d a s).2.1.started) :
    n ∈ s.started ∨ (n = a.name ∧ a.host ∈ (V1.upStep w d a s).2.1.pool) := by
  by_cases hd : d = true
  · subst hd
    revert hn
    simp only [V1.upStep, if_true]
    split
    · simp only [Bool.false_eq_true, if_false]
      intro hn
      rcases upStart_char w true a _ n hn with h | rfl
      · rw [getClient_started] at h
        exact Or.inl h
      · refine Or.inr ⟨rfl, ?_⟩
        rw [upStart_pool]
        exact getClient_pool_self w true a.host s (by assumption)
    · intro hn
      rw [getClient_started] at hn
      exact Or.inl hn
  · replace hd : d = false := by revert hd; cases d <;> simp
    subst hd
    revert hn
    simp only [V1.upStep, Bool.false_eq_true, if_false]
    split
    · split
      · split
        · intro hn
          rcases upStart_char w false a _ n hn with h | rfl
          · rw [runCommand_started, runCommand_started, getClient_started] at h
            exact Or.inl h
          · refine Or.inr ⟨rfl, ?_⟩
            rw [upStart_pool, runCommand_pool, runCommand_pool]
            exact getClient_pool_self w false a.host s (by assumption)
        · intro hn
          rw [runCommand_started, runCommand_started, getClient_started] at hn
          exact Or.inl hn
      · intro hn
        rcases upStart_char w false a _ n hn with h | rfl
        · rw [runCommand_started, getClient_started] at h
          exact Or.inl h
        · refine Or.inr ⟨rfl, ?_⟩
          rw [upStart_pool, runCommand_pool]
          exact getClient_pool_self w false a.host s (by assumption)
    · intro hn
      rw [getClient_started] at hn
      exact Or.inl hn

theorem upStep_ev_started (w : V1.World) (d : Bool) (a : V1.Application)
    (s : V1.St) (n : String)
    (hn : V1.Ev.started n ∈ (V1.upStep w d a s).2.2) :
    n ∈ (V1.upStep w d a s).2.1.started := by
  by_cases hd : d = true
  · subst hd
    revert hn
    simp only [V1.upStep, if_true]
    split
    · simp only [Bool.false_eq_true, if_false, List.append_nil]
      intro hn
      simp only [List.mem_append] at hn
      rcases hn with h | h
      · exact absurd (getClient_ev w true a.host s _ h) (by simp)
      · exact (upStart_ev_started w true a _ n h).2
    · intro hn
      exact absurd (getClient_ev w true a.host s _ hn) (by simp)
  · replace hd : d = false := by revert hd; cases d <;> simp
    subst hd
    revert hn
    simp only [V1.upStep, Bool.false_eq_true, if_false]
    split
    · split
      · split
        · intro hn
          simp only [List.append_assoc, List.mem_append] at hn
          rcases hn with h | h | h | h
          · exact absurd (getClient_ev w false a.host s _ h) (by simp)
          · exact absurd (runCommand_ev w false a.host a.checkCommand _ _ h)
              (by simp)
          · exact absurd (runCommand_ev w false a.host a.stopCommand _ _ h)
              (by simp)
          · exact (upStart_ev_started w false a _ n h).2
        · intro hn
          simp only [List.append_assoc, List.mem_append] at hn
          rcases hn with h | h | h
          · exact absurd (getClient_ev w false a.host s _ h) (by simp)
          · exact absurd (runCommand_ev w false a.host a.checkCommand _ _ h)
              (by simp)
          · exact absurd (runCommand_ev w false a.host a.stopCommand _ _ h)
              (by simp)
      · intro hn
        simp only [List.append_assoc, List.mem_append] at hn
        rcases hn with h | h | h
        · exact absurd (getClient_ev w false a.host s _ h) (by simp)
        · exact absurd (runCommand_ev w false a.host a.checkCommand _ _ h)
            (by simp)
        · exact (upStart_ev_started w false a _ n h).2
    · intro hn
      exact absurd (getClient_ev w false a.host s _ hn) (by simp)

theorem upStep_ev_kinds (w : V1.World) (d : Bool) (a : V1.Application)
    (s : V1.St) : ∀ e ∈ (V1.upStep w d a s).2.2, e.inStep = true := by
  by_cases hd : d = true
  · subst hd
    simp only [V1.upStep, if_true]
    split
    · simp only [Bool.false_eq_true, if_false, List.append_nil]
      intro e he
      simp only [List.mem_append] at he
      rcases he with h | h
      · obtain ⟨ok, rfl⟩ := getClient_ev w true a.host s _ h
        rfl
      · exact upStart_ev_kinds w true a _ e h
    · intro e he
      obtain ⟨ok, rfl⟩ := getClient_ev w true a.host s _ he
      rfl
  · replace hd : d = false := by revert hd; cases d <;> simp
    subst hd
    simp only [V1.upStep, Bool.false_eq_true, if_false]
    split
    · split
      · split
        · intro e he
          simp only [List.append_assoc, List.mem_append] at he
          rcases he with h | h | h | h
          · obtain ⟨ok, rfl⟩ := getClient_ev w false a.host s _ h; rfl
          · rcases runCommand_ev w false a.host a.checkCommand _ _ h with
              rfl | ⟨ok, rfl⟩ <;> rfl
          · rcases runCommand_ev w false a.host a.stopCommand _ _ h with
              rfl | ⟨ok, rfl⟩ <;> rfl
          · exact upStart_ev_kinds w false a _ e h
        · intro e he
          simp only [List.append_assoc, List.mem_append] at he
          rcases he with h | h | h
          · obtain ⟨ok, rfl⟩ := getClient_ev w false a.host s _ h; rfl
          · rcases runCommand_ev w false a.host a.checkCommand _ _ h with
              rfl | ⟨ok, rfl⟩ <;> rfl
          · rcases runCommand_ev w false a.host a.stopCommand _ _ h with
              rfl | ⟨ok, rfl⟩ <;> rfl
      · intro e he
        simp only [List.append_assoc, List.mem_append] at he
        rcases he with h | h | h
        · obtain ⟨ok, rfl⟩ := getClient_ev w false a.host s _ h; rfl
        · rcases runCommand_ev w false a.host a.checkCommand _ _ h with
            rfl | ⟨ok, rfl⟩ <;> rfl
        · exact upStart_ev_kinds w false a _ e h
    · intro e he
      obtain ⟨ok, rfl⟩ := getClient_ev w false a.host s _ he
      rfl

/-- The events of a rollback segment contain no `started` marker. -/
theorem rollback_no_started (w : V1.World) (d : Bool)
    (apps : List V1.Application) (s : V1.St) (n : String)
    (h : V1.Ev.started n ∈ (V1.rollback w d apps s).2) : False := by
  unfold V1.rollback at h
  simp only [List.mem_cons] at h
  rcases h with h | h
  · cases h
  · have := rollbackLoop_kinds w d apps.reverse s _ h
    simp [V1.Ev.inRb] at this


theorem bringUpLoop_rollback_covers (w : V1.World)
    (apps : List V1.Application)
    (hnd : (apps.map V1.Application.name).Nodup) :
    ∀ (rest : List V1.Application) (s : V1.St),
      (∀ z ∈ rest, z ∈ apps) →
      (∀ y ∈ apps, y.name ∈ s.started → y.host ∈ s.pool) →
      ∀ x ∈ apps,
        (V1.bringUpLoop w false apps rest s).1 = .rolledBack →
        (V1.Ev.started x.name ∈ (V1.bringUpLoop w false apps rest s).2.2 ∨
          x.name ∈ s.started) →
        V1.Ev.rbStop x.host x.stopCommand ∈
          (V1.bringUpLoop w false apps rest s).2.2 := by
  intro rest
  induction rest with
  | nil =>
    intro s _ hinv x hx hres hmem
    revert hres hmem
    simp only [V1.bringUpLoop, Bool.false_eq_true, if_false, Bool.not_false, Bool.true_and]
    split
    · intro _ hmem
      have hxs : x.name ∈ s.started := by
        rcases hmem with hmem | hmem
        · rcases List.mem_cons.mp hmem with h | h
          · cases h
          · exact absurd h (fun h => rollback_no_started w false apps _ _ h)
        · exact hmem
      have hcov := rollbackLoop_cover w false apps.reverse
        { s with polls := s.polls + 1 }
        (by rw [List.map_reverse]; exact List.nodup_reverse.mpr hnd)
        x (List.mem_reverse.mpr hx) hxs (hinv x hx hxs)
      simp only [List.mem_cons]
      right
      unfold V1.rollback
      simp only [List.mem_cons]
      right
      exact hcov
    · intro hres; cases hres
  | cons a rest ih =>
    intro s hsub hinv x hx hres hmem
    have ha : a ∈ apps := hsub a (List.mem_cons_self _ _)
    revert hres hmem
    simp only [V1.bringUpLoop, Bool.false_eq_true, if_false, Bool.not_false, Bool.true_and]
    split
    · intro hres; cases hres
    · split
      · intro _ hmem
        have hxs : x.name ∈ s.started := by
          rcases hmem with hmem | hmem
          · rcases List.mem_cons.mp hmem with h | h
            · cases h
            · exact absurd h (fun h => rollback_no_started w false apps _ _ h)
          · exact hmem
        have hcov := rollbackLoop_cover w false apps.reverse
          { s with polls := s.polls + 1 }
          (by rw [List.map_reverse]; exact List.nodup_reverse.mpr hnd)
          x (List.mem_reverse.mpr hx) hxs (hinv x hx hxs)
        simp only [List.mem_cons]
        right
        unfold V1.rollback
        simp only [List.mem_cons]
        right
        exact hcov
      · split
        · intro hres hmem
          have hinv2 : ∀ y ∈ apps,
              y.name ∈ (V1.upStep w false a
                { s with polls := s.polls + 1 }).2.1.started →
              y.host ∈ (V1.upStep w false a
                { s with polls := s.polls + 1 }).2.1.pool := by
            intro y hy hys
            rcases upStep_char w false a _ y.name hys with h | ⟨heq, hhost⟩
            · exact upStep_pool_mono w false a _ y.host (hinv y hy h)
            · have hya : y = a := List.inj_on_of_nodup_map hnd hy ha heq
              rw [hya]
              exact hhost
          have hsub2 : ∀ z ∈ rest, z ∈ apps :=
            fun z hz => hsub z (List.mem_cons_of_mem _ hz)
          have hmem2 : V1.Ev.started x.name ∈
              (V1.bringUpLoop w false apps rest
                (V1.upStep w false a { s with polls := s.polls + 1 }).2.1).2.2 ∨
              x.name ∈ (V1.upStep w false a
                { s with polls := s.polls + 1 }).2.1.started := by
            rcases hmem with hmem | hmem
            · rcases List.mem_append.mp hmem with h | h
              · exact Or.inr (upStep_ev_started w false a _ x.name h)
              · exact Or.inl h
            · exact Or.inr (upStep_started_mono w false a _ x.name hmem)
          have := ih (V1.upStep w false a { s with polls := s.polls + 1 }).2.1
            hsub2 hinv2 x hx hres hmem2
          exact List.mem_append_right _ this
        · intro _ hmem
          have hxs : x.name ∈ (V1.upStep w false a
              { s with polls := s.polls + 1 }).2.1.started := by
            rcases hmem with hmem | hmem
            · rcases List.mem_append.mp hmem with h | h
              · exact upStep_ev_started w false a _ x.name h
              · exact absurd h (fun h => rollback_no_started w false apps _ _ h)
            · exact upStep_started_mono w false a _ x.name hmem
          have hpool : x.host ∈ (V1.upStep w false a
              { s with polls := s.polls + 1 }).2.1.pool := by
            rcases upStep_char w false a _ x.name hxs with h | ⟨heq, hhost⟩
            · exact upStep_pool_mono w false a _ x.host (hinv x hx h)
            · have hxa : x = a := List.inj_on_of_nodup_map hnd hx ha heq
              rw [hxa]
              exact hhost
          have hcov := rollbackLoop_cover w false apps.reverse
            (V1.upStep w false a { s with polls := s.polls + 1 }).2.1
            (by rw [List.map_reverse]; exact List.nodup_reverse.mpr hnd)
            x (List.mem_reverse.mpr hx) hxs hpool
          refine List.mem_append_right _ ?_
          unfold V1.rollback
          simp only [List.mem_cons]
          right
          exact hcov

/-- Claim C1 counterexample: a bring-up canceled after the first application
started returns a failure (ctx.Err()) directly from the select, without
invoking rollback: the started step "a1" never has its stop command invoked.
The world: flag free, context canceled at the second select, no monitor
signal, all clients build, all commands succeed except the first pre-start
check. -/
theorem c1_canceled_run_never_stops_started :
    (V1.bringUp Scen.wCancel false [Scen.a1, Scen.a2]).1 = .canceled ∧
    V1.Ev.started "a1" ∈ (V1.bringUp Scen.wCancel false [Scen.a1, Scen.a2]).2.2 ∧
    ((V1.bringUp Scen.wCancel false [Scen.a1, Scen.a2]).2.2.filter
      (fun e => e.isRbStop || e == V1.Ev.rollbackBegin)) = [] ∧
    (V1.bringUp Scen.wCancel false [Scen.a1, Scen.a2]).2.2 =
      [.flagAcquire, .flagCreate, .clientBuild "h1" true,
       .remoteRun "h1" "check1" false, .remoteRun "h1" "start1" true,
       .started "a1", .remoteRun "h1" "check1" true, .pollCanceled,
       .flagRelease] := by decide

/-- Claim C1 (amended): for every non-dry bring-up that returns failure by
triggering rollback (any failure path other than flag-acquisition failure and
the direct ctx.Err() return on observed cancellation), rollback invokes the
stop command at least once for every step recorded as started — the SSH
client for a started step is always obtainable during rollback because the
factory pooled it when the step started — and rollback continues past
per-step stop failures, so every recorded step is attempted.  Application
names are assumed unique, as the config loader requires distinct entries. -/
theorem c1_rollback_stops_every_started (w : V1.World)
    (apps : List V1.Application)
    (hnd : (apps.map V1.Application.name).Nodup)
    (hres : (V1.bringUp w false apps).1 = .rolledBack)
    (x : V1.Application) (hx : x ∈ apps)
    (hst : V1.Ev.started x.name ∈ (V1.bringUp w false apps).2.2) :
    V1.Ev.rbStop x.host x.stopCommand ∈ (V1.bringUp w false apps).2.2 := by
  revert hres hst
  unfold V1.bringUp
  simp only [Bool.false_eq_true, if_false]
  split
  · intro hres; cases hres
  · intro hres hst
    simp only [List.mem_cons, List.mem_append, List.mem_singleton] at hst
    rcases hst with h | h | h | h | h
    · cases h
    · cases h
    · have := bringUpLoop_rollback_covers w apps hnd apps {}
        (fun z hz => hz)
        (fun y _ hy => absurd hy (List.not_mem_nil _))
        x hx hres (Or.inl h)
      simp only [List.mem_cons, List.mem_append]
      tauto
    · cases h
    · cases h

/-- Claim C1 witness: in the run where the start of a2 fails, rollback invokes
the stop command of a1 (even though that stop itself fails). -/
theorem c1_rollback_stops_every_started_witness :
    V1.Ev.rbStop Scen.a1.host Scen.a1.stopCommand ∈
      (V1.bringUp Scen.wStartFail false [Scen.a1, Scen.a2]).2.2 :=
  c1_rollback_stops_every_started Scen.wStartFail [Scen.a1, Scen.a2]
    (by decide) (by decide) Scen.a1 (by decide) (by decide)

/-! Helper lemmas for the monitor-abort claim. -/

theorem bringUpLoop_monitor_aborts (w : V1.World)
    (apps : List V1.Application) :
    ∀ (rest : List V1.Application) (s : V1.St),
      V1.Ev.pollMonitor ∈ (V1.bringUpLoop w false apps rest s).2.2 →
      (V1.bringUpLoop w false apps rest s).1 = .rolledBack ∧
      V1.Ev.rollbackBegin ∈ (V1.bringUpLoop w false apps rest s).2.2 := by
  intro rest
  induction rest with
  | nil =>
    intro s h
    revert h
    simp only [V1.bringUpLoop, Bool.false_eq_true, if_false]
    split
    · intro _
      refine ⟨rfl, ?_⟩
      simp only [List.mem_cons]
      right
      unfold V1.rollback
      exact List.mem_cons_self _ _
    · intro h; cases h
  | cons a rest ih =>
    intro s h
    revert h
    simp only [V1.bringUpLoop, Bool.false_eq_true, if_false, Bool.not_false,
      Bool.true_and]
    split
    · intro h
      simp only [List.mem_singleton] at h
      cases h
    · split
      · intro _
        refine ⟨rfl, ?_⟩
        simp only [List.mem_cons]
        right
        unfold V1.rollback
        exact List.mem_cons_self _ _
      · split
        · intro h
          rcases List.mem_append.mp h with h | h
          · have := upStep_ev_kinds w false a _ _ h
            simp [V1.Ev.inStep] at this
          · obtain ⟨h1, h2⟩ := ih _ h
            exact ⟨h1, List.mem_append_right _ h2⟩
        · intro _
          refine ⟨rfl, ?_⟩
          refine List.mem_append_right _ ?_
          unfold V1.rollback
          exact List.mem_cons_self _ _

theorem monitorApps_length (ticks : List (List Bool)) :
    (V1.monitorApps ticks).length ≤ 1 := by
  induction ticks with
  | nil => simp [V1.monitorApps]
  | cons t rest ih =>
    simp only [V1.monitorApps]
    split
    · simp
    · exact ih

/-- Claim C8: in a non-dry bring-up, whenever a select observes the pending
monitor-failure signal — before starting the next application or during the
final window after the last one — the run aborts: it performs rollback and
returns the rollback error, even if every step so far succeeded.  The monitor
itself publishes at most one failure signal per run and then exits. -/
theorem c8_monitor_signal_aborts (w : V1.World)
    (apps : List V1.Application) (ticks : List (List Bool))
    (h : V1.Ev.pollMonitor ∈ (V1.bringUp w false apps).2.2) :
    (V1.bringUp w false apps).1 = .rolledBack ∧
    V1.Ev.rollbackBegin ∈ (V1.bringUp w false apps).2.2 ∧
    (V1.monitorApps ticks).length ≤ 1 := by
  revert h
  unfold V1.bringUp
  simp only [Bool.false_eq_true, if_false]
  split
  · intro h; cases h
  · intro h
    simp only [List.mem_cons, List.mem_append, List.mem_singleton] at h
    rcases h with h | h | h | h | h
    · cases h
    · cases h
    · obtain ⟨h1, h2⟩ := bringUpLoop_monitor_aborts w apps apps {} h
      refine ⟨h1, ?_, monitorApps_length ticks⟩
      simp only [List.mem_cons, List.mem_append]
      tauto
    · cases h
    · cases h

/-- Claim C8 witness: both applications come up cleanly, but the monitor
signal is readable during the final window; the run still rolls back and
fails. -/
theorem c8_monitor_signal_aborts_witness :
    (V1.bringUp Scen.wMonitor false [Scen.a1, Scen.a2]).1 = .rolledBack ∧
    V1.Ev.rollbackBegin ∈
      (V1.bringUp Scen.wMonitor false [Scen.a1, Scen.a2]).2.2 ∧
    (V1.monitorApps [[false]]).length ≤ 1 :=
  c8_monitor_signal_aborts Scen.wMonitor [Scen.a1, Scen.a2] [[false]]
    (by decide)

/-! Helper lemmas for the dry-run frame claims. -/

theorem getClient_dry (w : V1.World) (h : String) (s : V1.St) :
    (V1.getClient w true h s).1 = true ∧
    (V1.getClient w true h s).2.2 = [] := by
  unfold V1.getClient
  split
  · exact ⟨rfl, rfl⟩
  · split
    · exact ⟨rfl, rfl⟩
    · simp at *

theorem upStep_dry (w : V1.World) (a : V1.Application) (s : V1.St) :
    (V1.upStep w true a s).1 = true ∧
    (V1.upStep w true a s).2.2 = [V1.Ev.started a.name] := by
  simp only [V1.upStep]
  rw [if_pos (getClient_dry w a.host s).1]
  simp only [if_true, Bool.false_eq_true, if_false]
  rw [(getClient_dry w a.host s).2]
  simp [V1.upStart]

theorem bringUpLoop_dry_events (w : V1.World) (apps : List V1.Application) :
    ∀ (rest : List V1.Application) (s : V1.St),
      ∀ e ∈ (V1.bringUpLoop w true apps rest s).2.2,
        e = V1.Ev.pollCanceled ∨ ∃ n, e = V1.Ev.started n := by
  intro rest
  induction rest with
  | nil =>
    intro s e he
    simp [V1.bringUpLoop] at he
  | cons a rest ih =>
    intro s e he
    revert he
    simp only [V1.bringUpLoop, Bool.not_true, Bool.false_and,
      Bool.not_false, Bool.true_or, Bool.and_true, Bool.false_eq_true,
      if_false]
    split
    · intro he
      simp only [List.mem_singleton] at he
      exact Or.inl he
    · rw [if_pos (upStep_dry w a _).1]
      rw [(upStep_dry w a _).2]
      intro he
      rcases List.mem_cons.mp he with rfl | he
      · exact Or.inr ⟨a.name, rfl⟩
      · exact ih _ e he

/-! Helper lemmas for the generation-2 dry run. -/

theorem stopService_dry (w : V2.World) (step : V2.Step)
    (env : V2.Environment) (s : V2.St) :
    V2.stopService w true step env s = (.ok (), s, [.wouldStop step.name]) :=
  rfl

theorem startService_dry (w : V2.World) (step : V2.Step)
    (env : V2.Environment) (s : V2.St) :
    V2.startService w true step env s = (.ok (), s, [.wouldStart step.name]) :=
  rfl

theorem handleCommand_dry (w : V2.World) (step : V2.Step)
    (env : V2.Environment) (s : V2.St) :
    V2.handleCommand w true step env s = (.ok (), s, [.wouldRunCmd step.name]) :=
  rfl

theorem handleApplicationUp_dry (w : V2.World) (hd sd : Bool) (step : V2.Step)
    (env : V2.Environment) (s : V2.St) :
    V2.handleApplicationUp w ⟨hd, sd, true⟩ step env s =
      (.ok (), s, [.wouldStop step.name]) := rfl

theorem handleDependencyUp_dry (w : V2.World) (hd sd : Bool) (step : V2.Step)
    (env : V2.Environment) (s : V2.St) :
    V2.handleDependencyUp w ⟨hd, sd, true⟩ step env s =
      (.ok (), s, [.wouldStop step.name, .wouldStart step.name]) := rfl

theorem verifyDependencyRunning_dry (w : V2.World) (hd sd : Bool)
    (step : V2.Step) (env : V2.Environment) (s : V2.St) :
    V2.verifyDependencyRunning w ⟨hd, sd, true⟩ step env s =
      (.ok (), s, []) := rfl

theorem rollbackSteps_dry_events (w : V2.World) (hd sd : Bool)
    (env : V2.Environment) :
    ∀ (lst : List V2.Step) (s : V2.St),
      ∀ e ∈ (V2.rollbackSteps w ⟨hd, sd, true⟩ env lst s).2,
        e.isExecute = false := by
  intro lst
  induction lst with
  | nil => intro s e he; simp [V2.rollbackSteps] at he
  | cons st rest ih =>
    intro s e he
    revert he
    simp only [V2.rollbackSteps, stopService_dry]
    split
    · exact fun he => ih _ e he
    · intro he
      rcases List.mem_cons.mp he with rfl | he
      · rfl
      · rcases List.mem_append.mp he with h | h
        · simp only [List.mem_singleton] at h
          rw [h]; rfl
        · exact ih _ e h

theorem handleUp_dry (w : V2.World) (hd sd : Bool) (step : V2.Step)
    (env : V2.Environment) (s : V2.St) :
    (V2.handleUp w ⟨hd, sd, true⟩ step env s).2.1 = s ∧
    ∀ e ∈ (V2.handleUp w ⟨hd, sd, true⟩ step env s).2.2,
      e.isExecute = false := by
  unfold V2.handleUp
  split
  · rw [handleApplicationUp_dry]
    refine ⟨rfl, ?_⟩
    intro e he
    simp only [List.mem_singleton] at he
    rw [he]; rfl
  · split
    · split
      · rw [handleDependencyUp_dry]
        refine ⟨rfl, ?_⟩
        intro e he
        rcases List.mem_cons.mp he with rfl | he
        · rfl
        · simp only [List.mem_singleton] at he
          rw [he]; rfl
      · rw [verifyDependencyRunning_dry]
        refine ⟨rfl, ?_⟩
        intro e he
        simp at he
    · refine ⟨rfl, ?_⟩
      intro e he
      simp at he

theorem upDispatch_dry (w : V2.World) (hd sd : Bool) (step : V2.Step)
    (env : V2.Environment) (s : V2.St) :
    (V2.upDispatch w ⟨hd, sd, true⟩ step env s).2.1 = s ∧
    ∀ e ∈ (V2.upDispatch w ⟨hd, sd, true⟩ step env s).2.2,
      e.isExecute = false := by
  unfold V2.upDispatch
  split
  · exact handleUp_dry w hd sd step env s
  · split
    · rw [show (⟨hd, sd, true⟩ : V2.Opts).dryRun = true from rfl,
        handleCommand_dry]
      refine ⟨rfl, ?_⟩
      intro e he
      simp only [List.mem_singleton] at he
      rw [he]; rfl
    · refine ⟨rfl, ?_⟩
      intro e he
      simp at he

theorem upSteps_dry_events (w : V2.World) (hd sd : Bool)
    (env : V2.Environment) :
    ∀ (lst : List (Nat × V2.Step)) (s : V2.St),
      ∀ e ∈ (V2.upSteps w ⟨hd, sd, true⟩ env lst s).2.2,
        e.isExecute = false := by
  intro lst
  induction lst with
  | nil => intro s e he; simp [V2.upSteps] at he
  | cons p rest ih =>
    obtain ⟨i, step⟩ := p
    intro s e he
    revert he
    simp only [V2.upSteps, V2.handleFailure]
    split
    · -- dispatch returned an error: handleFailure runs
      intro he
      rcases List.mem_append.mp he with h | h
      · exact (upDispatch_dry w hd sd step env s).2 e h
      · exact rollbackSteps_dry_events w hd sd env _ _ e h
    · -- dispatch succeeded; the health gate is skipped in dry-run
      simp only [Bool.not_true, Bool.and_false, Bool.false_eq_true, if_false]
      intro he
      rcases List.mem_append.mp he with h | h
      · exact (upDispatch_dry w hd sd step env s).2 e h
      · exact ih _ e h

/-- Claim C6: a dry-run Up issues no remote command on any host executor and
neither acquires nor creates nor releases the flag.  In generation 1 the flag
steps are skipped, the monitor is not spawned (so its channel is never
readable), and every RunCommand call site is guarded; rollback is unreachable
because the dry factory never fails and the simulated check reports
not-running.  In generation 2 every service operation short-circuits to a log
line before touching the SSH manager; there is no flag at all. -/
theorem c6_dry_up_frame (w : V1.World) (apps : List V1.Application)
    (w2 : V2.World) (hd sd : Bool) (cfg : V2.Config) (en : String) :
    ((V1.bringUp w true apps).2.2.filter
      (fun e => e.isRemote || e.isFlagOp)) = [] ∧
    ((V2.up w2 ⟨hd, sd, true⟩ cfg en).2.2.filter
      (fun e => e.isExecute)) = [] := by
  constructor
  · rw [List.filter_eq_nil_iff]
    intro e he
    have heq : V1.bringUp w true apps = V1.bringUpLoop w true apps apps {} :=
      rfl
    rw [heq] at he
    rcases bringUpLoop_dry_events w apps apps {} e he with rfl | ⟨n, rfl⟩ <;>
      simp [V1.Ev.isRemote, V1.Ev.isFlagOp]
  · unfold V2.up
    split
    · rfl
    · rw [List.filter_eq_nil_iff]
      intro e he
      have := upSteps_dry_events w2 hd sd _ _ _ e he
      simp [this]

/-- Claim C7 counterexample: in the step orchestrator, a dry-run Up over an
environment with one application step simulates the pre-start check as
"running" (isServiceRunning short-circuits to true in dry-run) and therefore
logs a simulated pre-start stop for the step — the dry-run trace is
exactly the would-stop line. -/
theorem c7_dry_prestart_stop_logged :
    (V2.up Scen.wAll Scen.oDry Scen.cfg1 "dev").1 = .ok () ∧
    (V2.up Scen.wAll Scen.oDry Scen.cfg1 "dev").2.2 =
      [V2.Ev.wouldStop "a"] ∧
    (V2.isServiceRunning Scen.wAll true Scen.appA
      ⟨[("H", ⟨"H"⟩)], [Scen.appA]⟩ {}).1 = .ok true :=
  ⟨rfl, by decide, rfl⟩

/-- Claim C7 (amended): in the generation-1 BringUp the dry-run pre-start check
is replaced by a simulated failure — the app is assumed not running — so the
already-running branch is never taken and no pre-start stop is ever logged or
simulated; in the generation-2 step orchestrator, dry-run isServiceRunning
instead reports every service as running, so every application step logs a
simulated pre-start stop (wouldStop) during a dry-run Up. -/
theorem c7_dry_prestart_check_assumed (w : V1.World)
    (apps : List V1.Application) (w2 : V2.World) (step : V2.Step)
    (env : V2.Environment) (s : V2.St) :
    ((V1.bringUp w true apps).2.2.filter
      (fun e => e.isWouldStopApp)) = [] ∧
    (V2.isServiceRunning w2 true step env s).1 = .ok true ∧
    V2.Ev.wouldStop "a" ∈ (V2.up Scen.wAll Scen.oDry Scen.cfg1 "dev").2.2 := by
  refine ⟨?_, rfl, by decide⟩
  rw [List.filter_eq_nil_iff]
  intro e he
  have heq : V1.bringUp w true apps = V1.bringUpLoop w true apps apps {} :=
    rfl
  rw [heq] at he
  rcases bringUpLoop_dry_events w apps apps {} e he with rfl | ⟨n, rfl⟩ <;>
    simp [V1.Ev.isWouldStopApp]

/-- Claim C2: in the step orchestrator, an application step whose pre-start
check reports the application running has its stop command executed and is
then left merely stopped — handleApplicationUp returns success right after
stopService, never reaching startService, and the subsequent health check
fails on the stopped application.  The generation-1 BringUp, at the analogous
input, falls through from the pre-start stop to the start command
(stop-then-start), as the claim, the sibling dependency handler and the
README describe. -/
theorem c2_running_app_stopped_never_started :
    (V2.up Scen.wRunThenFail Scen.oUp Scen.cfg1 "dev").1 =
      .error (.failedAt 0) ∧
    (V2.up Scen.wRunThenFail Scen.oUp Scen.cfg1 "dev").2.2 =
      [.execute "H" "check-a" true, .stopSvc "a",
       .execute "H" "stop-a" true, .execute "H" "check-a" false] ∧
    ((V2.up Scen.wRunThenFail Scen.oUp Scen.cfg1 "dev").2.2.filter
      (fun e => e.isStartSvc)) = [] ∧
    (V1.bringUp Scen.wRunning false [Scen.a1]).1 = .ok ∧
    (V1.bringUp Scen.wRunning false [Scen.a1]).2.2 =
      [.flagAcquire, .flagCreate, .clientBuild "h1" true,
       .remoteRun "h1" "check1" true, .remoteRun "h1" "stop1" true,
       .remoteRun "h1" "start1" true, .started "a1",
       .remoteRun "h1" "check1" true, .flagRelease] :=
  ⟨rfl, by decide, by decide, by decide, by decide⟩

/-- Claim C3 counterexample: in the step orchestrator with handle_deps=false,
a dependency step that was merely verified (never started by the run) is
nevertheless stopped by rollback: after the start of the application fails,
handleFailure issues the stop command of the dependency. -/
theorem c3_rollback_stops_verified_dependency :
    (V2.up Scen.wStartFail2 Scen.oUp Scen.cfg2 "dev").1 =
      .error (.failedAt 1) ∧
    Scen.depD.type = "dependency" ∧
    Scen.oUp.handleDeps = false ∧
    V2.Ev.rbStep "d" ∈ (V2.up Scen.wStartFail2 Scen.oUp Scen.cfg2 "dev").2.2 ∧
    V2.Ev.stopSvc "d" ∈ (V2.up Scen.wStartFail2 Scen.oUp Scen.cfg2 "dev").2.2 ∧
    V2.Ev.execute "HD" "stop-d" true ∈
      (V2.up Scen.wStartFail2 Scen.oUp Scen.cfg2 "dev").2.2 ∧
    ((V2.up Scen.wStartFail2 Scen.oUp Scen.cfg2 "dev").2.2.filter
      (fun e => e.isStartSvc || e.isRbStep)) =
      [.startSvc "a", .rbStep "d"] :=
  ⟨rfl, rfl, rfl, by decide, by decide, by decide, by decide⟩

/-! Helper lemmas for the rollback-domain claim. -/

theorem execute_trace (w : V2.World) (h c : String) (s : V2.St) :
    (V2.execute w h c s).2.2 = [.execute h c (w.execOk s.execs)] := rfl

theorem fanOutHosts_ev (w : V2.World) (env : V2.Environment) (cmd : String) :
    ∀ (hosts : List String) (s : V2.St),
      ∀ e ∈ (V2.fanOutHosts w env cmd hosts s).2.2, e.isExecute = true := by
  intro hosts
  induction hosts with
  | nil => intro s e he; simp [V2.fanOutHosts] at he
  | cons hn rest ih =>
    intro s e he
    revert he
    simp only [V2.fanOutHosts]
    split
    · intro he; simp at he
    · split
      · split
        · intro he
          rcases List.mem_append.mp he with h | h
          · rw [execute_trace] at h
            simp only [List.mem_singleton] at h
            rw [h]; rfl
          · exact ih _ e h
        · intro he
          rcases List.mem_append.mp he with h | h
          · rw [execute_trace] at h
            simp only [List.mem_singleton] at h
            rw [h]; rfl
          · exact ih _ e h
      · split
        · exact fun he => ih _ e he
        · exact fun he => ih _ e he

theorem stopService_no_rbStep (w : V2.World) (d : Bool) (step : V2.Step)
    (env : V2.Environment) (s : V2.St) :
    ∀ e ∈ (V2.stopService w d step env s).2.2, e.isRbStep = false := by
  simp only [V2.stopService]
  split
  · intro e he
    simp only [List.mem_singleton] at he
    rw [he]; rfl
  · split <;>
    · intro e he
      rcases List.mem_cons.mp he with rfl | he
      · rfl
      · have := fanOutHosts_ev w env step.stop step.hosts s e he
        cases e <;> simp_all [V2.Ev.isExecute, V2.Ev.isRbStep]

theorem rollbackSteps_cover (w : V2.World) (o : V2.Opts)
    (env : V2.Environment) :
    ∀ (lst : List V2.Step) (s : V2.St) (st : V2.Step), st ∈ lst →
      (st.type == "command") = false →
      V2.Ev.rbStep st.name ∈ (V2.rollbackSteps w o env lst s).2 := by
  intro lst
  induction lst with
  | nil => intro s st h _; cases h
  | cons b rest ih =>
    intro s st hst hcmd
    simp only [V2.rollbackSteps]
    split
    · rcases List.mem_cons.mp hst with rfl | hst'
      · simp_all
      · exact ih _ st hst' hcmd
    · rcases List.mem_cons.mp hst with rfl | hst'
      · exact List.mem_cons_self _ _
      · refine List.mem_cons_of_mem _ ?_
        exact List.mem_append_right _ (ih _ st hst' hcmd)

theorem rollbackSteps_sound (w : V2.World) (o : V2.Opts)
    (env : V2.Environment) :
    ∀ (lst : List V2.Step) (s : V2.St) (n : String),
      V2.Ev.rbStep n ∈ (V2.rollbackSteps w o env lst s).2 →
      ∃ st, st ∈ lst ∧ st.name = n ∧ (st.type == "command") = false := by
  intro lst
  induction lst with
  | nil => intro s n h; simp [V2.rollbackSteps] at h
  | cons b rest ih =>
    intro s n h
    revert h
    simp only [V2.rollbackSteps]
    split
    · intro h
      obtain ⟨st, h1, h2, h3⟩ := ih _ n h
      exact ⟨st, List.mem_cons_of_mem _ h1, h2, h3⟩
    · intro h
      rcases List.mem_cons.mp h with hb | h
      · refine ⟨b, List.mem_cons_self _ _, ?_, ?_⟩
        · cases hb; rfl
        · simp_all
      · rcases List.mem_append.mp h with h | h
        · have := stopService_no_rbStep w o.dryRun b env s _ h
          simp [V2.Ev.isRbStep] at this
        · obtain ⟨st, h1, h2, h3⟩ := ih _ n h
          exact ⟨st, List.mem_cons_of_mem _ h1, h2, h3⟩

theorem rollbackLoop_sound (w : V1.World) (d : Bool) :
    ∀ (rev : List V1.Application) (s : V1.St) (h c : String),
      V1.Ev.rbStop h c ∈ (V1.rollbackLoop w d rev s).2 →
      ∃ a, a ∈ rev ∧ a.host = h ∧ a.stopCommand = c ∧ a.name ∈ s.started := by
  intro rev
  induction rev with
  | nil => intro s h c hm; simp [V1.rollbackLoop] at hm
  | cons b rest ih =>
    intro s h c hm
    revert hm
    simp only [V1.rollbackLoop]
    split
    · split
      · intro hm
        simp only [List.mem_append, List.mem_cons, List.not_mem_nil,
          or_false] at hm
        rcases hm with ((h1 | h1) | h1) | h1
        · obtain ⟨ok, h2⟩ := getClient_ev w d b.host s _ h1
          cases h2
        · cases h1
          exact ⟨b, List.mem_cons_self _ _, rfl, rfl, by assumption⟩
        · rcases runCommand_ev w d b.host b.stopCommand _ _ h1 with h2 | ⟨ok, h2⟩ <;>
            cases h2
        · obtain ⟨a, h1, h2, h3, h4⟩ := ih _ h c h1
          refine ⟨a, List.mem_cons_of_mem _ h1, h2, h3, ?_⟩
          have h4' := h4
          rw [V1.St.started] at h4'
          exact List.mem_of_mem_erase (by
            rw [runCommand_started, getClient_started] at h4'
            exact h4')
      · intro hm
        rcases List.mem_append.mp hm with h1 | h1
        · obtain ⟨ok, h2⟩ := getClient_ev w d b.host s _ h1
          cases h2
        · obtain ⟨a, h1, h2, h3, h4⟩ := ih _ h c h1
          rw [getClient_started] at h4
          exact ⟨a, List.mem_cons_of_mem _ h1, h2, h3, h4⟩
    · intro hm
      obtain ⟨a, h1, h2, h3, h4⟩ := ih _ h c hm
      exact ⟨a, List.mem_cons_of_mem _ h1, h2, h3, h4⟩

/-- Claim C3 (amended): rollback never stops command steps — in both
generations — and the generation-1 rollback issues stop commands only for
applications recorded as started; but the handleFailure of the step orchestrator
stops every non-command step preceding the failed step, whether or not it was
started: dependency steps merely verified under handle_deps=false are stopped
too. -/
theorem c3_rollback_domain (w2 : V2.World) (o : V2.Opts)
    (env : V2.Environment) (i : Nat) (s2 : V2.St)
    (w1 : V1.World) (d : Bool) (apps : List V1.Application) (s1 : V1.St) :
    (∀ st ∈ env.sequence.take i, (st.type == "command") = false →
      V2.Ev.rbStep st.name ∈ (V2.handleFailure w2 o env i s2).2) ∧
    (∀ n, V2.Ev.rbStep n ∈ (V2.handleFailure w2 o env i s2).2 →
      ∃ st, st ∈ env.sequence.take i ∧ st.name = n ∧
        (st.type == "command") = false) ∧
    (∀ h c, V1.Ev.rbStop h c ∈ (V1.rollback w1 d apps s1).2 →
      ∃ a, a ∈ apps ∧ a.host = h ∧ a.stopCommand = c ∧
        a.name ∈ s1.started) := by
  refine ⟨?_, ?_, ?_⟩
  · intro st hst hcmd
    exact rollbackSteps_cover w2 o env _ s2 st (List.mem_reverse.mpr hst) hcmd
  · intro n hn
    obtain ⟨st, h1, h2, h3⟩ := rollbackSteps_sound w2 o env _ s2 n hn
    exact ⟨st, List.mem_reverse.mp h1, h2, h3⟩
  · intro h c hm
    unfold V1.rollback at hm
    rcases List.mem_cons.mp hm with h1 | h1
    · cases h1
    · obtain ⟨a, ha, h2, h3, h4⟩ := rollbackLoop_sound w1 d apps.reverse s1 h c h1
      exact ⟨a, List.mem_reverse.mp ha, h2, h3, h4⟩

/-- Claim C3 witness: the verified-only dependency "d" is covered by
handleFailure; every rbStep in that trace names a preceding non-command step;
and a concrete generation-1 rollback stop traces back to a started app. -/
theorem c3_rollback_domain_witness :
    V2.Ev.rbStep "d" ∈
      (V2.handleFailure Scen.wStartFail2 Scen.oUp Scen.env2 1 {}).2 ∧
    (∃ st, st ∈ Scen.env2.sequence.take 1 ∧ st.name = "d" ∧
      (st.type == "command") = false) ∧
    (∃ a, a ∈ [Scen.a1] ∧ a.host = "h1" ∧ a.stopCommand = "stop1" ∧
      a.name ∈ (⟨["a1"], ["h1"], 0, 0, 0⟩ : V1.St).started) :=
  ⟨(c3_rollback_domain Scen.wStartFail2 Scen.oUp Scen.env2 1 {}
      Scen.wStartFail false [Scen.a1] ⟨["a1"], ["h1"], 0, 0, 0⟩).1
      Scen.depD (by decide) (by decide),
   (c3_rollback_domain Scen.wStartFail2 Scen.oUp Scen.env2 1 {}
      Scen.wStartFail false [Scen.a1] ⟨["a1"], ["h1"], 0, 0, 0⟩).2.1
      "d" (by decide),
   (c3_rollback_domain Scen.wStartFail2 Scen.oUp Scen.env2 1 {}
      Scen.wStartFail false [Scen.a1] ⟨["a1"], ["h1"], 0, 0, 0⟩).2.2
      "h1" "stop1" (by decide)⟩

/-! Helper lemmas for the bring-down claim. -/

theorem bringDownLoop_result (w : V1.World) (d : Bool) :
    ∀ (lst : List V1.Application) (s : V1.St),
      (V1.bringDownLoop w d lst s).1 = .ok ∨
      (V1.bringDownLoop w d lst s).1 = .canceled := by
  intro lst
  induction lst with
  | nil => intro s; exact Or.inl rfl
  | cons a rest ih =>
    intro s
    simp only [V1.bringDownLoop]
    split
    · exact Or.inr rfl
    · split
      · exact ih _
      · exact ih _

theorem bringDownLoop_ok (w : V1.World) (d : Bool)
    (hc : ∀ k, w.ctxDone k = false) :
    ∀ (lst : List V1.Application) (s : V1.St),
      (V1.bringDownLoop w d lst s).1 = .ok := by
  intro lst
  induction lst with
  | nil => intro s; rfl
  | cons a rest ih =>
    intro s
    simp only [V1.bringDownLoop, hc, Bool.false_eq_true, if_false]
    split
    · exact ih _
    · exact ih _

/-- Claim C10: BringDown returns nil even when SSH client construction or the
stop commands fail on some or all applications — such failures are only
logged and the reverse loop continues — so its only non-nil results are the
flag-acquisition failure and the cancellation error; and once its environment
is found, the Down of the step orchestrator always returns nil, whatever fails. -/
theorem c10_down_error_domain (w : V1.World) (d : Bool)
    (apps : List V1.Application) (w2 : V2.World) (o : V2.Opts)
    (cfg : V2.Config) (en : String) (env : V2.Environment)
    (henv : cfg.environments.lookup en = some env) :
    ((V1.bringDown w d apps).1 = .ok ∨
      (V1.bringDown w d apps).1 = .flagFailed ∨
      (V1.bringDown w d apps).1 = .canceled) ∧
    (w.acquire = true → (∀ k, w.ctxDone k = false) →
      (V1.bringDown w d apps).1 = .ok) ∧
    (V2.down w2 o cfg en).1 = .ok () := by
  refine ⟨?_, ?_, ?_⟩
  · unfold V1.bringDown
    split
    · rcases bringDownLoop_result w true apps.reverse {} with h | h
      · exact Or.inl h
      · exact Or.inr (Or.inr h)
    · split
      · exact Or.inr (Or.inl rfl)
      · rcases bringDownLoop_result w false apps.reverse {} with h | h
        · exact Or.inl h
        · exact Or.inr (Or.inr h)
  · intro ha hc
    unfold V1.bringDown
    split
    · exact bringDownLoop_ok w true hc apps.reverse {}
    · split
      · simp_all
      · exact bringDownLoop_ok w false hc apps.reverse {}
  · unfold V2.down
    rw [henv]

/-- Claim C10 witness: with every client construction and every command
failing, a non-dry BringDown still returns nil, and so does the step
Down of the step orchestrator. -/
theorem c10_down_error_domain_witness :
    (V1.bringDown Scen.wDown false [Scen.a1, Scen.a2]).1 = .ok ∧
    (V2.down Scen.wBad Scen.oUp Scen.cfg2 "dev").1 = .ok () :=
  ⟨(c10_down_error_domain Scen.wDown false [Scen.a1, Scen.a2] Scen.wBad
      Scen.oUp Scen.cfg2 "dev" Scen.env2 (by decide)).2.1 rfl (fun _ => rfl),
   (c10_down_error_domain Scen.wDown false [Scen.a1, Scen.a2] Scen.wBad
      Scen.oUp Scen.cfg2 "dev" Scen.env2 (by decide)).2.2⟩
